import Mathlib

/-!
Verification of the batch transcription job runner
(`whisper_gui_queue_full_pp_v3.py`).  Pure helper functions are embedded
directly; the `_worker` thread body is embedded as a deterministic function
of an explicit environment describing the external world (probe results,
child-process output characters, wall-clock samples, cancellation flag
reads, per-file output files).  Python floats are modelled as exact
rationals (`ℚ`).
-/

attribute [local semireducible] Rat.mul Rat.add Rat.inv Rat.sub

namespace Whisper

/-- Characters trimmed by `base.rstrip("._- ")` in `derive_merged_basename`
(source lines 176-177): dot, underscore, hyphen, space. -/
def isSepStrip (c : Char) : Bool := c = '.' || c = '_' || c = '-' || c = ' '

/-- The separator class `[._-]` of the trailing digit-group pattern
`([._-]?\d+)+$` (source line 177): dot, underscore, hyphen (no space). -/
def isSepGrp (c : Char) : Bool := c = '.' || c = '_' || c = '-'

/-- Python `str.rstrip` over the separator set `"._- "`. -/
def rstripSepsList (l : List Char) : List Char :=
  (l.reverse.dropWhile isSepStrip).reverse

/-- String version of `rstripSepsList`. -/
def rstripSeps (s : String) : String := String.mk (rstripSepsList s.data)

/-- Whether `l` matches the whole regex `([._-]?\d+)+`: one or more groups,
each an optional separator followed by one or more digits.  The fuel is the
length of `l`; each group consumes at least one character.  Greedy digit
munching is complete for this pattern (splitting a digit run between two
adjacent groups consumes the same characters). -/
def groupsMatchAux : Nat → List Char → Bool
  | _, [] => false
  | 0, _ :: _ => false
  | fuel + 1, c :: rest =>
    let body := fun (l : List Char) =>
      match l with
      | [] => false
      | d :: r2 =>
        d.isDigit &&
          (let r3 := r2.dropWhile Char.isDigit
           r3.isEmpty || groupsMatchAux fuel r3)
    if isSepGrp c then body rest else body (c :: rest)

/-- Whole-list match of `([._-]?\d+)+`. -/
def groupsMatch (l : List Char) : Bool := groupsMatchAux l.length l

/-- `re.sub(r"([._-]?\d+)+$", "", l)`: a match anchored at `$` is a suffix
that fully matches the group pattern; `re.sub` removes the leftmost such
suffix, i.e. the longest one.  If no suffix matches, the list is kept. -/
def stripDigitSuffix : List Char → List Char
  | [] => []
  | c :: rest =>
    if groupsMatch (c :: rest) then []
    else c :: stripDigitSuffix rest

/-- Character-wise longest common literal prefix of two names
(source lines 168-172). -/
def commonPrefix2 : List Char → List Char → List Char
  | a :: as, b :: bs => if a = b then a :: commonPrefix2 as bs else []
  | _, _ => []

/-- `derive_merged_basename` (source lines 159-178), over the list of file
stems (`Path.stem` of each queued file, computed by the caller).  The
source's early `break` when the running prefix becomes empty is the same as
folding on, since the common prefix with an empty string is empty. -/
def derive_merged_basename (stems : List String) : String :=
  match stems with
  | [] => "merged"
  | s0 :: rest =>
    let base :=
      match rest with
      | [] => s0.data
      | _ :: _ => rest.foldl (fun b s => commonPrefix2 b s.data) s0.data
    let b1 := rstripSepsList base
    let b2 := rstripSepsList (stripDigitSuffix b1)
    if b2 = [] then "merged" else String.mk b2

/-- Single-file output of the Basename Deriver as the amended claim C2
states it: trim trailing separators, strip any trailing run of
separator+digit groups, trim trailing separators again, and fall back to
"merged" when empty — i.e. the same post-processing as the multi-file
case, applied to the lone stem. -/
def singleFileResult (s : String) : String :=
  let b2 := rstripSepsList (stripDigitSuffix (rstripSepsList s.data))
  if b2 = [] then "merged" else String.mk b2

/-- ASCII whitespace, for `\s` in the progress pattern (the inputs of
interest are ASCII; exotic Unicode whitespace is not modelled). -/
def isWS (c : Char) : Bool :=
  c = ' ' || c = '\t' || c = '\n' || c = '\r' || c = Char.ofNat 11 || c = Char.ofNat 12

/-- Case-insensitive literal match (for `re.IGNORECASE`): consume the
pattern characters, returning the remaining input on success. -/
def litMatchCI : List Char → List Char → Option (List Char)
  | [], l => some l
  | _ :: _, [] => none
  | p :: ps, c :: cs => if c.toLower = p.toLower then litMatchCI ps cs else none

/-- Skip `\s*`. -/
def skipWS (l : List Char) : List Char := l.dropWhile isWS

/-- Match the captured group `([0-9]+(?:\.[0-9]+)?)` at the head of `l`,
greedily, returning the captured characters.  The trailing `%?` of the
pattern always matches and does not affect the capture. -/
def numCapture (l : List Char) : Option (List Char) :=
  match l with
  | [] => none
  | c :: _ =>
    if c.isDigit then
      let ip := l.takeWhile Char.isDigit
      let r1 := l.dropWhile Char.isDigit
      match r1 with
      | '.' :: r2 =>
        match r2 with
        | d :: _ =>
          if d.isDigit then some (ip ++ '.' :: r2.takeWhile Char.isDigit)
          else some ip
        | [] => some ip
      | _ => some ip
    else none

/-- The fixed literal head of `PROG_RE` (source lines 50-53). -/
def progMarker : List Char := "whisper_print_progress_callback:".data

/-- Attempt to match `PROG_RE` starting at the head of `l`; on success
return the group-1 capture.  `\s*` is matched greedily, which is complete
here since the following literal never starts with whitespace. -/
def progMatchAt (l : List Char) : Option (List Char) :=
  match litMatchCI progMarker l with
  | none => none
  | some r1 =>
    match litMatchCI "progress".data (skipWS r1) with
    | none => none
    | some r3 =>
      match skipWS r3 with
      | '=' :: r5 => numCapture (skipWS r5)
      | _ => none

/-- `PROG_RE.search`: leftmost position at which the pattern matches,
returning the group-1 capture. -/
def progSearchList : List Char → Option (List Char)
  | [] => none
  | c :: rest =>
    match progMatchAt (c :: rest) with
    | some cap => some cap
    | none => progSearchList rest

/-- Numeric value of a decimal digit. -/
def digitVal (c : Char) : Nat := c.toNat - 48

/-- Value of a digit string. -/
def natOfDigits (l : List Char) : Nat := l.foldl (fun a c => a * 10 + digitVal c) 0

/-- Exact value of a captured `[0-9]+(?:\.[0-9]+)?` token (Python's
`float(...)` of the capture, modelled exactly in `ℚ`). -/
def ratOfCapture (l : List Char) : ℚ :=
  let ip := l.takeWhile Char.isDigit
  let r1 := l.dropWhile Char.isDigit
  match r1 with
  | '.' :: fp => (natOfDigits ip : ℚ) + (natOfDigits fp : ℚ) / (10 : ℚ) ^ fp.length
  | _ => (natOfDigits ip : ℚ)

/-- Python's two-argument `max` on exact rationals. -/
def pyMax (a b : ℚ) : ℚ := if b ≤ a then a else b

/-- Python's two-argument `min` on exact rationals. -/
def pyMin (a b : ℚ) : ℚ := if a ≤ b then a else b

/-- Source lines 662-663: `pct = (raw / 100.0) if raw > 100.0 else raw;
pct = max(0.0, min(100.0, pct))`. -/
def pctOfRaw (raw : ℚ) : ℚ := pyMax 0 (pyMin 100 (if 100 < raw then raw / 100 else raw))

/-- Raw value produced by `PROG_RE.search` on a line, if any. -/
def progSearch (s : String) : Option ℚ := (progSearchList s.data).map ratOfCapture

/-- Percentage update produced by one completed line in real-progress
mode: the raw value of the match, if any, pushed through the divide/clamp
of source lines 662-663. -/
def lineUpdate (s : String) : Option ℚ := (progSearch s).map pctOfRaw

/-- Parse an unsigned decimal mantissa `\d+(\.\d*)? | \.\d+`, returning
its value and the remaining characters. -/
def parseMantissa (l : List Char) : Option (ℚ × List Char) :=
  let ip := l.takeWhile Char.isDigit
  let r1 := l.dropWhile Char.isDigit
  match r1 with
  | '.' :: r2 =>
    let fp := r2.takeWhile Char.isDigit
    let r3 := r2.dropWhile Char.isDigit
    if ip.isEmpty && fp.isEmpty then none
    else some ((natOfDigits ip : ℚ) + (natOfDigits fp : ℚ) / (10 : ℚ) ^ fp.length, r3)
  | _ => if ip.isEmpty then none else some ((natOfDigits ip : ℚ), r1)

/-- Apply a decimal exponent of the given sign to a mantissa. -/
def applyExp (m : ℚ) (neg : Bool) (l : List Char) : Option ℚ :=
  if l.isEmpty then none
  else if l.all Char.isDigit then
    some (if neg then m / (10 : ℚ) ^ natOfDigits l else m * (10 : ℚ) ^ natOfDigits l)
  else none

/-- Continue after the mantissa: end of input, or an exponent part. -/
def parseAfterMantissa (m : ℚ) : List Char → Option ℚ
  | [] => some m
  | c :: r =>
    if c = 'e' ∨ c = 'E' then
      match r with
      | '+' :: r2 => applyExp m false r2
      | '-' :: r2 => applyExp m true r2
      | _ => applyExp m false r
    else none

/-- Unsigned float literal. -/
def parseUnsignedFloat (l : List Char) : Option ℚ :=
  match parseMantissa l with
  | none => none
  | some (m, rest) => parseAfterMantissa m rest

/-- Python `float(s)` on an already-stripped string, for finite decimal
notation (optional sign, decimal mantissa, optional exponent), modelled
exactly in `ℚ`.  `inf`, `nan` and digit-group underscores are not
modelled; `ffprobe` emits plain decimals. -/
def parsePyFloat (s : String) : Option ℚ :=
  match s.data with
  | '-' :: r => (parseUnsignedFloat r).map Neg.neg
  | '+' :: r => parseUnsignedFloat r
  | l => parseUnsignedFloat l

/-- `get_duration_seconds` (source lines 119-129), as a function of the
probed file's name and the external tool's exit code, stripped stdout and
stripped stderr: non-zero exit raises, an unparseable stdout raises
(Python `float` `ValueError`), and otherwise the parsed value clamped
below at `0.0` is returned (`max(0.0, float(out))`). -/
def get_duration_seconds (name : String) (rc : Int) (out err : String) : Except String ℚ :=
  if rc ≠ 0 then
    Except.error ("ffprobe failed for " ++ name ++ ": " ++ (if err = "" then out else err))
  else
    match parsePyFloat out with
    | none => Except.error ("could not convert string to float: " ++ out)
    | some q => Except.ok (pyMax 0 q)

/-- The run events the worker posts to the UI queue (`self.ui_queue.put`),
tagged and carrying exactly the payload tuples of the source. -/
inductive Event where
  | file_start (idx total : Nat) (name : String) (dur : ℚ)
  | progress (total_audio total_done_est total_elapsed dur done_file file_elapsed : ℚ)
      (idx total : Nat) (name : String)
  | file_done (idx total : Nat) (name : String)
  | log (msg : String)
  | done
  | error (msg : String)
deriving DecidableEq

/-- The validated `JobSettings` dataclass (source lines 181-196), with
paths as strings.  Only `real_progress` influences the worker behaviour
modelled here; the remaining fields feed the child process command line,
which belongs to the external Process Supervisor boundary. -/
structure JobSettings where
  whisper_cli : String
  model : String
  out_dir : String
  language : String
  threads : Nat
  beam_size : Nat
  best_of : Nat
  no_fallback : Bool
  no_timestamps : Bool
  flash_attn : Bool
  vad : Bool
  compute_mode : String
  real_progress : Bool
deriving DecidableEq

/-- One iteration of the per-file polling loop (source lines 636-676),
described by what the external world answers during it: the value of
`cancel_event.is_set()` at the top of the iteration, `time.time()`, and
the result of `proc.stdout.read(1)` (`none` for an empty read or a read
exception). -/
structure Iter where
  cancel : Bool
  now : ℚ
  ch : Option Char
deriving DecidableEq

/-- The external-world record for one queued file: its `Path.name` and
`Path.stem`, the ffprobe outcome (exit code, stripped stdout, stripped
stderr), `time.time()` at the start of the file, the finite list of
polling-loop iterations until `proc.poll()` turns non-`None`, the value
of `cancel_event.is_set()` re-read after the loop, `time.time()` after
the loop, the child process exit code (never consulted by the worker),
whether `out_txt.exists()`, the stripped text read from it, and the value
of `cancel_event.is_set()` at the top of the `for` loop. -/
structure FileRun where
  name : String
  stem : String
  probeRc : Int
  probeOut : String
  probeErr : String
  startTime : ℚ
  iters : List Iter
  cancelAfter : Bool
  endTime : ℚ
  exitCode : Int
  outExists : Bool
  outText : String
  cancelBefore : Bool
deriving DecidableEq

/-- Per-file loop state: the partial-line buffer, `last_pct`,
`last_done_file`, and the progress events emitted so far for this file
(source lines 632-634). -/
structure LoopState where
  buf : List Char
  last_pct : Option ℚ
  last_done_file : ℚ
  events : List Event
deriving DecidableEq

/-- Newline class of `re.split(r"[\r\n]+", buf)`. -/
def isNL (c : Char) : Bool := c = '\r' || c = '\n'

/-- `re.split(r"[\r\n]+", l)`: split on maximal nonempty runs of newline
characters, keeping empty leading/trailing fields.  Fuel is the length of
the input; every recursive step consumes at least one character. -/
def splitNLAux : Nat → List Char → List (List Char)
  | _, [] => [[]]
  | 0, l => [l]
  | fuel + 1, l =>
    let cur := l.takeWhile (fun c => !(isNL c))
    let rest := l.dropWhile (fun c => !(isNL c))
    match rest with
    | [] => [cur]
    | _ :: _ => cur :: splitNLAux fuel (rest.dropWhile isNL)

/-- `re.split(r"[\r\n]+", l)`. -/
def splitNL (l : List Char) : List (List Char) := splitNLAux l.length l

/-- Processing of one completed line (source lines 657-664): if `PROG_RE`
matches, the last match's divided/clamped value replaces `last_pct`,
otherwise `last_pct` is kept. -/
def feedLine (lp : Option ℚ) (line : List Char) : Option ℚ :=
  match progSearchList line with
  | some cap => some (pctOfRaw (ratOfCapture cap))
  | none => lp

/-- Source lines 653-664: append the character read to `buf`, split on
newline runs, process every completed part in order, and keep the final
(incomplete) part as the new buffer. -/
def processChar (st : LoopState) (c : Char) : LoopState :=
  let parts := splitNL (st.buf ++ [c])
  { st with
    buf := (parts.getLast?).getD []
    last_pct := (parts.dropLast).foldl feedLine st.last_pct }

/-- Source lines 648-655: in real-progress mode one character is read (a
`none` read leaves the state alone); otherwise stdout is not consulted. -/
def stRead (rp : Bool) (it : Iter) (st : LoopState) : LoopState :=
  if rp then
    match it.ch with
    | some c => processChar st c
    | none => st
  else st

/-- Source lines 666-669: the completed-seconds estimate for the current
file, from the last percentage if the duration is positive and one was
seen, else capped wall-clock extrapolation. -/
def doneFileOf (dur file_elapsed speed_est : ℚ) (lp : Option ℚ) : ℚ :=
  match lp with
  | some p => if 0 < dur then dur * (p / 100) else pyMin dur (file_elapsed * speed_est)
  | none => pyMin dur (file_elapsed * speed_est)

/-- One non-cancelled iteration of the polling loop (source lines
644-676): read at most one character, recompute `done_file`, and forward
a progress event exactly when it strictly exceeds `last_done_file`. -/
def iterStep (rp : Bool) (total_audio dur speed_est startT totalStart tda : ℚ)
    (idx total : Nat) (name : String) (it : Iter) (st : LoopState) : LoopState :=
  let st1 := stRead rp it st
  let df := doneFileOf dur (it.now - startT) speed_est st1.last_pct
  if st1.last_done_file < df then
    { st1 with
      last_done_file := df
      events := st1.events ++
        [Event.progress total_audio (tda + df) (it.now - totalStart) dur df
          (it.now - startT) idx total name] }
  else st1

/-- The whole polling loop (source lines 636-676): iterations run until
the process exits (the list is exhausted) or `cancel_event` is observed
set, which terminates the child and breaks out. -/
def runIters (rp : Bool) (total_audio dur speed_est startT totalStart tda : ℚ)
    (idx total : Nat) (name : String) : List Iter → LoopState → LoopState
  | [], st => st
  | it :: rest, st =>
    if it.cancel then st
    else
      runIters rp total_audio dur speed_est startT totalStart tda idx total name rest
        (iterStep rp total_audio dur speed_est startT totalStart tda idx total name it st)

/-- The fixed sentinel substituted for a missing per-file transcript
(source line 691). -/
def sentinel : String := "[NO OUTPUT TXT FOUND]"

/-- A merged-transcript block: `f"--- {base} ---\n{text}\n"` (source
line 692). -/
def mkBlock (base text : String) : String := "--- " ++ base ++ " ---\n" ++ text ++ "\n"

/-- The block appended for a finished file: its transcript if the
per-file output exists, else the sentinel (source lines 688-692). -/
def blockOf (f : FileRun) : String :=
  mkBlock f.stem (if f.outExists then f.outText else sentinel)

/-- Source lines 683-686: the throughput EMA update after a finished
file, with the wall-clock time floored at `0.001`; a non-positive
duration leaves the estimate unchanged. -/
def speedUpdate (sp dur wall : ℚ) : ℚ :=
  if 0 < dur then sp * (7/10) + (dur / pyMax (1/1000) wall) * (3/10) else sp

/-- Accumulated run state across files: events posted so far,
`merged_parts`, `total_done_audio` and `speed_est`. -/
structure RunState where
  events : List Event
  merged_parts : List String
  total_done_audio : ℚ
  speed_est : ℚ
deriving DecidableEq

/-- The body of the `for` loop for one file (source lines 573-694),
returning the new state and whether the loop `break`s (cancellation seen
at the loop top or re-read after the polling loop). -/
def stepFile (rp : Bool) (total_audio totalStart : ℚ) (total : Nat)
    (st : RunState) (idx : Nat) (f : FileRun) (dur : ℚ) : RunState × Bool :=
  if f.cancelBefore then (st, true)
  else
    let ls := runIters rp total_audio dur st.speed_est f.startTime totalStart
        st.total_done_audio idx total f.name f.iters
        { buf := [], last_pct := none, last_done_file := 0, events := [] }
    let st1 : RunState :=
      { st with events := st.events ++ [Event.file_start idx total f.name dur] ++ ls.events }
    if f.cancelAfter then (st1, true)
    else
      ({ events := st1.events ++ [Event.file_done idx total f.name]
         merged_parts := st.merged_parts ++ [blockOf f]
         total_done_audio := st.total_done_audio + dur
         speed_est := speedUpdate st.speed_est dur (f.endTime - f.startTime) }, false)

/-- The `for idx, (audio, dur) in enumerate(zip(files, durations), 1)`
loop (source line 573): run each file in order until exhaustion or a
`break`. -/
def runFiles (rp : Bool) (total_audio totalStart : ℚ) (total : Nat) :
    List (FileRun × ℚ) → Nat → RunState → RunState
  | [], _, st => st
  | (f, dur) :: rest, idx, st =>
    let p := stepFile rp total_audio totalStart total st idx f dur
    if p.2 then p.1
    else runFiles rp total_audio totalStart total rest (idx + 1) p.1

/-- The duration pre-computation
`durations = [get_duration_seconds(f) for f in files]` (source line 562):
probes run in order and the first raised error aborts the whole
comprehension. -/
def probeAll : List FileRun → Except String (List ℚ)
  | [] => Except.ok []
  | f :: rest =>
    match get_duration_seconds f.name f.probeRc f.probeOut f.probeErr with
    | Except.error e => Except.error e
    | Except.ok d =>
      match probeAll rest with
      | Except.error e => Except.error e
      | Except.ok ds => Except.ok (d :: ds)

/-- Observable outcome of one `_worker` invocation: the events posted to
the UI queue in order, the merged-transcript parts when the merged file
is written (`none` when the run failed before the write), and the final
`speed_est`. -/
structure WorkerResult where
  events : List Event
  merged : Option (List String)
  finalSpeed : ℚ
deriving DecidableEq

/-- `WhisperGUI._worker` (source lines 560-701) as a function of the
settings, the `time.time()` at run start, and the per-file external
environments.  A probe failure raises out of the `try` block: the only
event is the error event and no merged file is written.  Otherwise the
files run in order; after exhaustion or a cancellation `break` the merged
file is always written and the `log` and `done` events posted (source
lines 696-698).  `total_audio = float(sum(durations)) or 0.0` equals the
plain sum in exact arithmetic. -/
def runWorker (settings : JobSettings) (totalStart : ℚ) (files : List FileRun) :
    WorkerResult :=
  match probeAll files with
  | Except.error e => { events := [Event.error e], merged := none, finalSpeed := 1/5 }
  | Except.ok durations =>
    let total_audio := durations.sum
    let merged_base := derive_merged_basename (files.map FileRun.stem)
    let stF := runFiles settings.real_progress total_audio totalStart files.length
        (files.zip durations) 1
        { events := [], merged_parts := [], total_done_audio := 0, speed_est := 1/5 }
    { events := stF.events ++
        [Event.log ("Merged transcript: " ++ merged_base ++ "_merged.txt"), Event.done]
      merged := some stF.merged_parts
      finalSpeed := stF.speed_est }

/-- The terminal message the UI poll loop logs on the `done` event
(source line 732): "Stopped." when the cancel flag is set, else
"All done.". -/
def doneMessage (cancelled : Bool) : String :=
  if cancelled then "Stopped." else "All done."

/-- The `done_file` component of a progress event. -/
def doneOf : Event → Option ℚ
  | Event.progress _ _ _ _ df _ _ _ _ => some df
  | _ => none

/-- The sequence of `done_file` values carried by the progress events of
an event list, in emission order. -/
def doneVals (l : List Event) : List ℚ := l.filterMap doneOf

/-- A progress event's emitted totals are consistent with a given batch
duration: `total_audio` equals it and `total_done_est` never exceeds it.
Other events satisfy this vacuously. -/
def progOK (q : ℚ) : Event → Prop
  | Event.progress ta td _ _ _ _ _ _ _ => ta = q ∧ td ≤ q
  | _ => True

/-- Events the running loop can emit (no error, log or terminal event). -/
def workEvent : Event → Prop
  | Event.file_start _ _ _ _ => True
  | Event.progress _ _ _ _ _ _ _ _ _ => True
  | Event.file_done _ _ _ => True
  | _ => False

/-- A stored percentage, when present, lies in `[0, 100]`. -/
def pctOK (o : Option ℚ) : Prop := ∀ p, o = some p → 0 ≤ p ∧ p ≤ 100

/-- Replace only the (never consulted) child exit code of a file record. -/
def setExit (c : Int) (f : FileRun) : FileRun := { f with exitCode := c }

/-- Fixed job settings used by concrete runs (estimated-progress mode). -/
def S0 : JobSettings :=
  { whisper_cli := "whisper-cli.exe", model := "model.bin", out_dir := "transcripts",
    language := "bg", threads := 8, beam_size := 1, best_of := 1,
    no_fallback := true, no_timestamps := true, flash_attn := false, vad := false,
    compute_mode := "Auto (default)", real_progress := false }

/-- A file that probes to 10 s, runs one quiet polling iteration at time 5,
finishes at time 10 and leaves a transcript. -/
def W1 : FileRun :=
  { name := "a.wav", stem := "a", probeRc := 0, probeOut := "10", probeErr := "",
    startTime := 0, iters := [{ cancel := false, now := 5, ch := none }],
    cancelAfter := false, endTime := 10, exitCode := 0,
    outExists := true, outText := "hello", cancelBefore := false }

/-- A file whose child process exits (code 0) without leaving the expected
per-file transcript. -/
def W2 : FileRun :=
  { name := "b.wav", stem := "b", probeRc := 0, probeOut := "4", probeErr := "",
    startTime := 10, iters := [], cancelAfter := false, endTime := 12, exitCode := 0,
    outExists := false, outText := "", cancelBefore := false }

/-- A file whose duration probe fails (non-zero ffprobe exit). -/
def F4 : FileRun :=
  { name := "c.wav", stem := "c", probeRc := 1, probeOut := "", probeErr := "boom",
    startTime := 0, iters := [], cancelAfter := false, endTime := 0, exitCode := 0,
    outExists := true, outText := "unused", cancelBefore := false }

/-- A file during whose processing cancellation is requested: the flag is
set when re-read after the polling loop. -/
def F5b : FileRun :=
  { name := "d.wav", stem := "d", probeRc := 0, probeOut := "2", probeErr := "",
    startTime := 10, iters := [], cancelAfter := true, endTime := 11, exitCode := 0,
    outExists := true, outText := "partial", cancelBefore := false }

/-- A third queued file, never reached in the cancellation scenario. -/
def F5c : FileRun :=
  { name := "e.wav", stem := "e", probeRc := 0, probeOut := "3", probeErr := "",
    startTime := 20, iters := [], cancelAfter := false, endTime := 23, exitCode := 0,
    outExists := true, outText := "tail", cancelBefore := true }

/-- A file of duration 1 s finishing in half a millisecond of wall time:
below the 0.001 s floor of the throughput update. -/
def F8 : FileRun :=
  { name := "f.wav", stem := "f", probeRc := 0, probeOut := "1", probeErr := "",
    startTime := 0, iters := [], cancelAfter := false, endTime := 1/2000, exitCode := 0,
    outExists := true, outText := "quick", cancelBefore := false }

theorem pyMax_eq_max (a b : ℚ) : pyMax a b = max a b := by
  unfold pyMax
  rcases le_total b a with h | h
  · rw [if_pos h, max_eq_left h]
  · rcases eq_or_lt_of_le h with rfl | hlt
    · simp
    · rw [if_neg (not_le.mpr hlt), max_eq_right h]

theorem pyMin_eq_min (a b : ℚ) : pyMin a b = min a b := by
  unfold pyMin
  rcases le_total a b with h | h
  · rw [if_pos h, min_eq_left h]
  · rcases eq_or_lt_of_le h with rfl | hlt
    · simp
    · rw [if_neg (not_le.mpr hlt), min_eq_right h]

theorem pctOfRaw_nonneg (r : ℚ) : 0 ≤ pctOfRaw r := by
  rw [pctOfRaw, pyMax_eq_max]; exact le_max_left _ _

theorem pctOfRaw_le_100 (r : ℚ) : pctOfRaw r ≤ 100 := by
  rw [pctOfRaw, pyMax_eq_max, pyMin_eq_min]
  exact max_le (by norm_num) (min_le_left _ _)

theorem stRead_events (rp : Bool) (it : Iter) (st : LoopState) :
    (stRead rp it st).events = st.events := by
  unfold stRead
  by_cases h : rp
  · rw [if_pos h]
    cases it.ch <;> rfl
  · rw [if_neg h]

theorem stRead_ldf (rp : Bool) (it : Iter) (st : LoopState) :
    (stRead rp it st).last_done_file = st.last_done_file := by
  unfold stRead
  by_cases h : rp
  · rw [if_pos h]
    cases it.ch <;> rfl
  · rw [if_neg h]

theorem feedLine_pctOK (line : List Char) {lp : Option ℚ} (h : pctOK lp) :
    pctOK (feedLine lp line) := by
  unfold feedLine
  cases hm : progSearchList line with
  | none => exact h
  | some cap =>
    intro p hp
    have hv : pctOfRaw (ratOfCapture cap) = p := Option.some.inj hp
    rw [← hv]
    exact ⟨pctOfRaw_nonneg _, pctOfRaw_le_100 _⟩

theorem foldl_feedLine_pctOK :
    ∀ (parts : List (List Char)) (lp : Option ℚ), pctOK lp →
      pctOK (parts.foldl feedLine lp)
  | [], _, h => h
  | line :: rest, lp, h => foldl_feedLine_pctOK rest (feedLine lp line) (feedLine_pctOK line h)

theorem processChar_pctOK (st : LoopState) (c : Char) (h : pctOK st.last_pct) :
    pctOK (processChar st c).last_pct :=
  foldl_feedLine_pctOK _ _ h

theorem stRead_pctOK (rp : Bool) (it : Iter) (st : LoopState) (h : pctOK st.last_pct) :
    pctOK (stRead rp it st).last_pct := by
  unfold stRead
  by_cases hr : rp
  · rw [if_pos hr]
    cases it.ch with
    | none => exact h
    | some c => exact processChar_pctOK st c h
  · rw [if_neg hr]
    exact h

theorem doneFileOf_le (dur fe sp : ℚ) (lp : Option ℚ) (hp : pctOK lp) (hd : 0 ≤ dur) :
    doneFileOf dur fe sp lp ≤ dur := by
  unfold doneFileOf
  cases hl : lp with
  | none => rw [pyMin_eq_min]; exact min_le_left _ _
  | some p =>
    dsimp only
    by_cases h0 : 0 < dur
    · rw [if_pos h0]
      obtain ⟨hp0, hp100⟩ := hp p hl
      calc dur * (p / 100) ≤ dur * 1 := by
            apply mul_le_mul_of_nonneg_left _ hd
            rw [div_le_one (by norm_num)]
            exact hp100
        _ = dur := mul_one dur
    · rw [if_neg h0, pyMin_eq_min]
      exact min_le_left _ _

theorem iterStep_pct (rp : Bool) (qta qd qs qst qts qtda : ℚ) (idx total : Nat)
    (name : String) (it : Iter) (st : LoopState) :
    (iterStep rp qta qd qs qst qts qtda idx total name it st).last_pct =
      (stRead rp it st).last_pct := by
  simp only [iterStep]
  split_ifs <;> rfl

theorem iterStep_cases (rp : Bool) (qta qd qs qst qts qtda : ℚ) (idx total : Nat)
    (name : String) (it : Iter) (st : LoopState) :
    ((iterStep rp qta qd qs qst qts qtda idx total name it st).events = st.events ∧
      (iterStep rp qta qd qs qst qts qtda idx total name it st).last_done_file =
        st.last_done_file) ∨
    (∃ df,
      (iterStep rp qta qd qs qst qts qtda idx total name it st).events =
        st.events ++ [Event.progress qta (qtda + df) (it.now - qts) qd df
          (it.now - qst) idx total name] ∧
      (iterStep rp qta qd qs qst qts qtda idx total name it st).last_done_file = df ∧
      st.last_done_file < df ∧
      (pctOK st.last_pct → 0 ≤ qd → df ≤ qd)) := by
  simp only [iterStep]
  by_cases h : (stRead rp it st).last_done_file <
      doneFileOf qd (it.now - qst) qs (stRead rp it st).last_pct
  · right
    refine ⟨doneFileOf qd (it.now - qst) qs (stRead rp it st).last_pct, ?_, ?_, ?_, ?_⟩
    · rw [if_pos h]
      rw [stRead_events]
    · rw [if_pos h]
    · rw [← stRead_ldf rp it st]
      exact h
    · intro hp hd
      exact doneFileOf_le _ _ _ _ (stRead_pctOK rp it st hp) hd
  · left
    rw [if_neg h]
    exact ⟨stRead_events rp it st, stRead_ldf rp it st⟩

theorem runIters_events_mem (rp : Bool) (qta qd qs qst qts qtda : ℚ)
    (idx total : Nat) (name : String) :
    ∀ (iters : List Iter) (st : LoopState) (e : Event),
      e ∈ (runIters rp qta qd qs qst qts qtda idx total name iters st).events →
      e ∈ st.events ∨ ∃ ta td te d df fe i t n, e = Event.progress ta td te d df fe i t n := by
  intro iters
  induction iters with
  | nil =>
    intro st e he
    rw [runIters] at he
    exact Or.inl he
  | cons it rest ih =>
    intro st e he
    rw [runIters] at he
    by_cases hc : it.cancel
    · rw [if_pos hc] at he
      exact Or.inl he
    · rw [if_neg hc] at he
      rcases ih _ e he with h1 | h2
      · rcases iterStep_cases rp qta qd qs qst qts qtda idx total name it st with
          ⟨he1, _⟩ | ⟨df, he1, _, _, _⟩
        · rw [he1] at h1
          exact Or.inl h1
        · rw [he1] at h1
          rcases List.mem_append.mp h1 with h | h
          · exact Or.inl h
          · right
            rw [List.mem_singleton.mp h]
            exact ⟨_, _, _, _, _, _, _, _, _, rfl⟩
      · exact Or.inr h2

theorem runIters_progOK (rp : Bool) (qta qd qs qst qts qtda : ℚ)
    (idx total : Nat) (name : String) (hd : 0 ≤ qd) (hbound : qtda + qd ≤ qta) :
    ∀ (iters : List Iter) (st : LoopState),
      pctOK st.last_pct → (∀ e ∈ st.events, progOK qta e) →
      ∀ e ∈ (runIters rp qta qd qs qst qts qtda idx total name iters st).events,
        progOK qta e := by
  intro iters
  induction iters with
  | nil =>
    intro st _ hev e he
    rw [runIters] at he
    exact hev e he
  | cons it rest ih =>
    intro st hp hev e he
    rw [runIters] at he
    by_cases hc : it.cancel
    · rw [if_pos hc] at he
      exact hev e he
    · rw [if_neg hc] at he
      refine ih _ ?_ ?_ e he
      · rw [iterStep_pct]
        exact stRead_pctOK rp it st hp
      · intro e2 he2
        rcases iterStep_cases rp qta qd qs qst qts qtda idx total name it st with
          ⟨he1, _⟩ | ⟨df, he1, _, _, hle⟩
        · rw [he1] at he2
          exact hev e2 he2
        · rw [he1] at he2
          rcases List.mem_append.mp he2 with h | h
          · exact hev e2 h
          · rw [List.mem_singleton.mp h]
            refine ⟨rfl, ?_⟩
            calc qtda + df ≤ qtda + qd := by
                  exact add_le_add_left (hle hp hd) qtda
              _ ≤ qta := hbound

theorem runIters_sorted (rp : Bool) (qta qd qs qst qts qtda : ℚ)
    (idx total : Nat) (name : String) :
    ∀ (iters : List Iter) (st : LoopState),
      List.Pairwise (fun a b : ℚ => a < b) (doneVals st.events) →
      (∀ d ∈ doneVals st.events, d ≤ st.last_done_file) →
      List.Pairwise (fun a b : ℚ => a < b)
        (doneVals (runIters rp qta qd qs qst qts qtda idx total name iters st).events) ∧
      (∀ d ∈ doneVals (runIters rp qta qd qs qst qts qtda idx total name iters st).events,
        d ≤ (runIters rp qta qd qs qst qts qtda idx total name iters st).last_done_file) := by
  intro iters
  induction iters with
  | nil =>
    intro st hpw hbd
    rw [runIters]
    exact ⟨hpw, hbd⟩
  | cons it rest ih =>
    intro st hpw hbd
    rw [runIters]
    by_cases hc : it.cancel
    · rw [if_pos hc]
      exact ⟨hpw, hbd⟩
    · rw [if_neg hc]
      rcases iterStep_cases rp qta qd qs qst qts qtda idx total name it st with
        ⟨he1, hl1⟩ | ⟨df, he1, hl1, hlt, _⟩
      · refine ih _ ?_ ?_
        · rw [he1]; exact hpw
        · rw [he1, hl1]; exact hbd
      · have hdv : doneVals (iterStep rp qta qd qs qst qts qtda idx total name it st).events =
            doneVals st.events ++ [df] := by
          rw [he1]
          unfold doneVals
          rw [List.filterMap_append]
          rfl
        refine ih _ ?_ ?_
        · rw [hdv]
          rw [List.pairwise_append]
          refine ⟨hpw, List.pairwise_singleton _ _, ?_⟩
          intro a ha b hb
          rw [List.mem_singleton.mp hb]
          exact lt_of_le_of_lt (hbd a ha) hlt
        · rw [hdv, hl1]
          intro d hd2
          rcases List.mem_append.mp hd2 with h | h
          · exact le_of_lt (lt_of_le_of_lt (hbd d h) hlt)
          · rw [List.mem_singleton.mp h]

theorem dur_ok_nonneg (name : String) (rc : Int) (out err : String) (q : ℚ)
    (h : get_duration_seconds name rc out err = Except.ok q) : 0 ≤ q := by
  unfold get_duration_seconds at h
  by_cases hrc : rc ≠ 0
  · rw [if_pos hrc] at h
    exact absurd h (by simp)
  · rw [if_neg hrc] at h
    cases hv : parsePyFloat out with
    | none => rw [hv] at h; exact absurd h (by simp)
    | some v =>
      rw [hv] at h
      have h2 : pyMax 0 v = q := Except.ok.inj h
      rw [← h2, pyMax_eq_max]
      exact le_max_left _ _

theorem probeAll_ok_length :
    ∀ (files : List FileRun) (ds : List ℚ), probeAll files = Except.ok ds →
      ds.length = files.length := by
  intro files
  induction files with
  | nil =>
    intro ds h
    rw [probeAll] at h
    rw [← Except.ok.inj h]
    rfl
  | cons f rest ih =>
    intro ds h
    rw [probeAll] at h
    cases hp : get_duration_seconds f.name f.probeRc f.probeOut f.probeErr with
    | error e => rw [hp] at h; exact absurd h (by simp)
    | ok d =>
      rw [hp] at h
      cases hr : probeAll rest with
      | error e => rw [hr] at h; exact absurd h (by simp)
      | ok ds2 =>
        rw [hr] at h
        rw [← Except.ok.inj h]
        simp [ih ds2 hr]

theorem probeAll_ok_nonneg :
    ∀ (files : List FileRun) (ds : List ℚ), probeAll files = Except.ok ds →
      ∀ d ∈ ds, 0 ≤ d := by
  intro files
  induction files with
  | nil =>
    intro ds h
    rw [probeAll] at h
    rw [← Except.ok.inj h]
    intro d hd0
    exact absurd hd0 (by simp)
  | cons f rest ih =>
    intro ds h
    rw [probeAll] at h
    cases hp : get_duration_seconds f.name f.probeRc f.probeOut f.probeErr with
    | error e => rw [hp] at h; exact absurd h (by simp)
    | ok d0 =>
      rw [hp] at h
      cases hr : probeAll rest with
      | error e => rw [hr] at h; exact absurd h (by simp)
      | ok ds2 =>
        rw [hr] at h
        rw [← Except.ok.inj h]
        intro d hd
        rcases List.mem_cons.mp hd with rfl | hmem
        · exact dur_ok_nonneg _ _ _ _ _ hp
        · exact ih ds2 hr d hmem

theorem zip_map_snd :
    ∀ (fs : List FileRun) (ds : List ℚ), ds.length = fs.length →
      (fs.zip ds).map Prod.snd = ds := by
  intro fs
  induction fs with
  | nil =>
    intro ds h
    rw [List.length_eq_zero.mp h]
    rfl
  | cons f fs2 ih =>
    intro ds h
    cases ds with
    | nil => exact absurd h (by simp)
    | cons d ds2 =>
      rw [List.zip_cons_cons, List.map_cons, ih ds2 (by simpa using h)]

theorem zip_map_fst_fun {α : Type} (g : FileRun → α) :
    ∀ (fs : List FileRun) (ds : List ℚ), ds.length = fs.length →
      (fs.zip ds).map (fun p => g p.1) = fs.map g := by
  intro fs
  induction fs with
  | nil =>
    intro ds h
    rw [List.length_eq_zero.mp h]
    rfl
  | cons f fs2 ih =>
    intro ds h
    cases ds with
    | nil => exact absurd h (by simp)
    | cons d ds2 =>
      rw [List.zip_cons_cons, List.map_cons, List.map_cons, ih ds2 (by simpa using h)]

theorem stepFile_unfold_cb (rp : Bool) (qta qts : ℚ) (tot : Nat) (st : RunState)
    (idx : Nat) (f : FileRun) (dur : ℚ) (hcb : f.cancelBefore = true) :
    stepFile rp qta qts tot st idx f dur = (st, true) := by
  simp [stepFile, hcb]

theorem stepFile_unfold_ca (rp : Bool) (qta qts : ℚ) (tot : Nat) (st : RunState)
    (idx : Nat) (f : FileRun) (dur : ℚ) (hcb : f.cancelBefore = false)
    (hca : f.cancelAfter = true) :
    stepFile rp qta qts tot st idx f dur =
      ({ st with events := st.events ++ [Event.file_start idx tot f.name dur] ++
          (runIters rp qta dur st.speed_est f.startTime qts st.total_done_audio idx tot
            f.name f.iters
            { buf := [], last_pct := none, last_done_file := 0, events := [] }).events },
        true) := by
  simp [stepFile, hcb, hca]

theorem stepFile_unfold_ok (rp : Bool) (qta qts : ℚ) (tot : Nat) (st : RunState)
    (idx : Nat) (f : FileRun) (dur : ℚ) (hcb : f.cancelBefore = false)
    (hca : f.cancelAfter = false) :
    stepFile rp qta qts tot st idx f dur =
      ({ events := (st.events ++ [Event.file_start idx tot f.name dur] ++
          (runIters rp qta dur st.speed_est f.startTime qts st.total_done_audio idx tot
            f.name f.iters
            { buf := [], last_pct := none, last_done_file := 0, events := [] }).events ++
          [Event.file_done idx tot f.name])
         merged_parts := st.merged_parts ++ [blockOf f]
         total_done_audio := st.total_done_audio + dur
         speed_est := speedUpdate st.speed_est dur (f.endTime - f.startTime) }, false) := by
  simp [stepFile, hcb, hca]

theorem runFiles_cons_cb (rp : Bool) (qta qts : ℚ) (tot : Nat) (f : FileRun) (dur : ℚ)
    (rest : List (FileRun × ℚ)) (idx : Nat) (st : RunState)
    (hcb : f.cancelBefore = true) :
    runFiles rp qta qts tot ((f, dur) :: rest) idx st = st := by
  rw [runFiles, stepFile_unfold_cb rp qta qts tot st idx f dur hcb]
  rfl

theorem runFiles_cons_ca (rp : Bool) (qta qts : ℚ) (tot : Nat) (f : FileRun) (dur : ℚ)
    (rest : List (FileRun × ℚ)) (idx : Nat) (st : RunState)
    (hcb : f.cancelBefore = false) (hca : f.cancelAfter = true) :
    runFiles rp qta qts tot ((f, dur) :: rest) idx st =
      { st with events := st.events ++ [Event.file_start idx tot f.name dur] ++
          (runIters rp qta dur st.speed_est f.startTime qts st.total_done_audio idx tot
            f.name f.iters
            { buf := [], last_pct := none, last_done_file := 0, events := [] }).events } := by
  rw [runFiles, stepFile_unfold_ca rp qta qts tot st idx f dur hcb hca]
  rfl

theorem runFiles_cons_ok (rp : Bool) (qta qts : ℚ) (tot : Nat) (f : FileRun) (dur : ℚ)
    (rest : List (FileRun × ℚ)) (idx : Nat) (st : RunState)
    (hcb : f.cancelBefore = false) (hca : f.cancelAfter = false) :
    runFiles rp qta qts tot ((f, dur) :: rest) idx st =
      runFiles rp qta qts tot rest (idx + 1)
        { events := (st.events ++ [Event.file_start idx tot f.name dur] ++
            (runIters rp qta dur st.speed_est f.startTime qts st.total_done_audio idx tot
              f.name f.iters
              { buf := [], last_pct := none, last_done_file := 0, events := [] }).events ++
            [Event.file_done idx tot f.name])
          merged_parts := st.merged_parts ++ [blockOf f]
          total_done_audio := st.total_done_audio + dur
          speed_est := speedUpdate st.speed_est dur (f.endTime - f.startTime) } := by
  rw [runFiles, stepFile_unfold_ok rp qta qts tot st idx f dur hcb hca]
  rfl

theorem runFiles_events_mem (rp : Bool) (qta qts : ℚ) (tot : Nat) :
    ∀ (pairs : List (FileRun × ℚ)) (idx : Nat) (st : RunState) (e : Event),
      e ∈ (runFiles rp qta qts tot pairs idx st).events →
      e ∈ st.events ∨ workEvent e := by
  intro pairs
  induction pairs with
  | nil =>
    intro idx st e he
    rw [runFiles] at he
    exact Or.inl he
  | cons p rest ih =>
    obtain ⟨f, dur⟩ := p
    intro idx st e he
    have hls : ∀ e2 ∈ (runIters rp qta dur st.speed_est f.startTime qts
        st.total_done_audio idx tot f.name f.iters
        { buf := [], last_pct := none, last_done_file := 0, events := [] }).events,
        workEvent e2 := by
      intro e2 he2
      rcases runIters_events_mem rp qta dur st.speed_est f.startTime qts
          st.total_done_audio idx tot f.name f.iters _ e2 he2 with h1 | ⟨_, _, _, _, _, _, _, _, _, rfl⟩
      · exact absurd h1 (by simp)
      · exact trivial
    cases hcb : f.cancelBefore with
    | true =>
      rw [runFiles_cons_cb rp qta qts tot f dur rest idx st hcb] at he
      exact Or.inl he
    | false =>
      cases hca : f.cancelAfter with
      | true =>
        rw [runFiles_cons_ca rp qta qts tot f dur rest idx st hcb hca] at he
        rcases List.mem_append.mp he with h1 | h2
        · rcases List.mem_append.mp h1 with h3 | h4
          · exact Or.inl h3
          · rw [List.mem_singleton.mp h4]
            exact Or.inr trivial
        · exact Or.inr (hls e h2)
      | false =>
        rw [runFiles_cons_ok rp qta qts tot f dur rest idx st hcb hca] at he
        rcases ih (idx + 1) _ e he with h1 | h2
        · rcases List.mem_append.mp h1 with h3 | h4
          · rcases List.mem_append.mp h3 with h5 | h6
            · rcases List.mem_append.mp h5 with h7 | h8
              · exact Or.inl h7
              · rw [List.mem_singleton.mp h8]
                exact Or.inr trivial
            · exact Or.inr (hls e h6)
          · rw [List.mem_singleton.mp h4]
            exact Or.inr trivial
        · exact Or.inr h2

theorem runFiles_progOK (rp : Bool) (qta qts : ℚ) (tot : Nat) :
    ∀ (pairs : List (FileRun × ℚ)) (idx : Nat) (st : RunState),
      (∀ e ∈ st.events, progOK qta e) →
      (∀ p ∈ pairs, 0 ≤ p.2) →
      st.total_done_audio + (pairs.map Prod.snd).sum ≤ qta →
      ∀ e ∈ (runFiles rp qta qts tot pairs idx st).events, progOK qta e := by
  intro pairs
  induction pairs with
  | nil =>
    intro idx st hev _ _ e he
    rw [runFiles] at he
    exact hev e he
  | cons p rest ih =>
    obtain ⟨f, dur⟩ := p
    intro idx st hev hpos hsum e he
    have hd : 0 ≤ dur := hpos (f, dur) (List.mem_cons_self _ _)
    have hrest : ∀ q ∈ rest, 0 ≤ q.2 := fun q hq => hpos q (List.mem_cons_of_mem _ hq)
    have hsum2 : st.total_done_audio + dur + (rest.map Prod.snd).sum ≤ qta := by
      rw [List.map_cons, List.sum_cons] at hsum
      linarith
    have hbound : st.total_done_audio + dur ≤ qta := by
      have h0 : 0 ≤ (rest.map Prod.snd).sum := List.sum_nonneg (by
        intro x hx
        rcases List.mem_map.mp hx with ⟨q, hq, rfl⟩
        exact hrest q hq)
      linarith
    have hls : ∀ e2 ∈ (runIters rp qta dur st.speed_est f.startTime qts
        st.total_done_audio idx tot f.name f.iters
        { buf := [], last_pct := none, last_done_file := 0, events := [] }).events,
        progOK qta e2 := by
      intro e2 he2
      refine runIters_progOK rp qta dur st.speed_est f.startTime qts
          st.total_done_audio idx tot f.name hd hbound f.iters _ ?_ ?_ e2 he2
      · intro p0 hp0
        exact absurd hp0 (by simp)
      · intro e3 he3
        exact absurd he3 (by simp)
    cases hcb : f.cancelBefore with
    | true =>
      rw [runFiles_cons_cb rp qta qts tot f dur rest idx st hcb] at he
      exact hev e he
    | false =>
      cases hca : f.cancelAfter with
      | true =>
        rw [runFiles_cons_ca rp qta qts tot f dur rest idx st hcb hca] at he
        rcases List.mem_append.mp he with h1 | h2
        · rcases List.mem_append.mp h1 with h3 | h4
          · exact hev e h3
          · rw [List.mem_singleton.mp h4]
            exact trivial
        · exact hls e h2
      | false =>
        rw [runFiles_cons_ok rp qta qts tot f dur rest idx st hcb hca] at he
        refine ih (idx + 1) _ ?_ hrest hsum2 e he
        intro e2 he2
        rcases List.mem_append.mp he2 with h1 | h2
        · rcases List.mem_append.mp h1 with h3 | h4
          · rcases List.mem_append.mp h3 with h5 | h6
            · exact hev e2 h5
            · rw [List.mem_singleton.mp h6]
              exact trivial
          · exact hls e2 h4
        · rw [List.mem_singleton.mp h2]
          exact trivial

theorem runFiles_no_cancel (rp : Bool) (qta qts : ℚ) (tot : Nat) :
    ∀ (pairs : List (FileRun × ℚ)) (idx : Nat) (st : RunState),
      (∀ p ∈ pairs, p.1.cancelBefore = false ∧ p.1.cancelAfter = false) →
      (runFiles rp qta qts tot pairs idx st).merged_parts =
        st.merged_parts ++ pairs.map (fun p => blockOf p.1) ∧
      (runFiles rp qta qts tot pairs idx st).speed_est =
        pairs.foldl (fun sp p => speedUpdate sp p.2 (p.1.endTime - p.1.startTime))
          st.speed_est := by
  intro pairs
  induction pairs with
  | nil =>
    intro idx st _
    rw [runFiles]
    simp
  | cons p rest ih =>
    obtain ⟨f, dur⟩ := p
    intro idx st hnc
    have hcb : f.cancelBefore = false := (hnc (f, dur) (List.mem_cons_self _ _)).1
    have hca : f.cancelAfter = false := (hnc (f, dur) (List.mem_cons_self _ _)).2
    rw [runFiles_cons_ok rp qta qts tot f dur rest idx st hcb hca]
    obtain ⟨h1, h2⟩ := ih (idx + 1) _ (fun q hq => hnc q (List.mem_cons_of_mem _ hq))
    constructor
    · rw [h1]
      simp
    · rw [h2]
      rw [List.foldl_cons]

/-- C1 counterexample: the claim says a raw value of `150` in a progress
line clamps to `100.0`; the code divides values above 100 by 100 first
(source line 662), so the line yields `1.5`, not `100`. -/
theorem C1_raw_over_100_counterexample :
    lineUpdate "whisper_print_progress_callback: progress = 150%" = some (3/2) ∧
    (3/2 : ℚ) ≠ 100 :=
  ⟨rfl, by norm_num⟩

/-- C1 (amended): a matched line yields the raw value when it is at most
100 (`45` yields `45.0`); a raw value exceeding 100 is divided by 100 and
then clamped into `[0,100]` (`150` yields `1.5`); every produced update
lies in `[0,100]`; a line without the marker produces no update and
leaves the last stored percentage unchanged. -/
theorem C1_percentage_parser_amended :
    lineUpdate "whisper_print_progress_callback: progress = 45%" = some 45 ∧
    lineUpdate "whisper_print_progress_callback: progress = 150%" = some (3/2) ∧
    (∀ s r, progSearch s = some r →
      lineUpdate s = some (pctOfRaw r) ∧ 0 ≤ pctOfRaw r ∧ pctOfRaw r ≤ 100) ∧
    (∀ s, progSearch s = none → lineUpdate s = none) ∧
    (∀ lp line, progSearchList line = none → feedLine lp line = lp) := by
  refine ⟨rfl, rfl, ?_, ?_, ?_⟩
  · intro s r h
    refine ⟨?_, pctOfRaw_nonneg r, pctOfRaw_le_100 r⟩
    rw [lineUpdate, h]
    rfl
  · intro s h
    rw [lineUpdate, h]
    rfl
  · intro lp line h
    rw [feedLine, h]

/-- C1 witness: the amended parser contract at the spec's own example
line. -/
theorem C1_percentage_parser_witness :
    lineUpdate "whisper_print_progress_callback: progress = 45%" = some (pctOfRaw 45) ∧
    0 ≤ pctOfRaw 45 ∧ pctOfRaw 45 ≤ 100 :=
  C1_percentage_parser_amended.2.2.1 "whisper_print_progress_callback: progress = 45%" 45 rfl

/-- C2 counterexample: the claim says a single file's name is returned
verbatim after only trimming trailing separator characters, yet the code
also strips trailing digit groups in the single-file case (source line
177): `["lecture_01"]` gives `"lecture"`, while trimming alone leaves
`"lecture_01"` unchanged. -/
theorem C2_single_file_counterexample :
    derive_merged_basename [ "lecture_01" ] = "lecture" ∧
    rstripSeps "lecture_01" = "lecture_01" ∧
    ("lecture" : String) ≠ "lecture_01" :=
  ⟨rfl, rfl, by decide⟩

/-- C2 (amended): for a single file the deriver applies the same
post-processing as the multi-file case to the lone stem — trim trailing
separators, strip a trailing run of separator+digit groups, trim again,
fall back to "merged" when empty; `["talk"]` still yields `"talk"`. -/
theorem C2_single_file_amended :
    (∀ s : String, derive_merged_basename [s] = singleFileResult s) ∧
    derive_merged_basename [ "talk" ] = "talk" ∧
    singleFileResult "lecture_01" = "lecture" :=
  ⟨fun _ => rfl, rfl, rfl⟩

/-- C3 counterexample: the claim says any tool output parsing as a
negative number makes the prober fail, but `max(0.0, float(out))`
(source line 129) silently clamps: exit 0 with stdout `-5` returns
`0.0`. -/
theorem C3_negative_duration_counterexample :
    get_duration_seconds "a.wav" 0 "-5" "" = Except.ok 0 ∧
    parsePyFloat "-5" = some (-5) ∧ (-5 : ℚ) < 0 :=
  ⟨rfl, rfl, by norm_num⟩

/-- C3 (amended): the prober raises exactly when the tool exits non-zero
or its output does not parse as a float; a parsed value is clamped below
at `0` and returned, so every returned duration is non-negative (negative
outputs yield `0.0` rather than an error). -/
theorem C3_duration_prober_amended : ∀ name rc out err,
    (∀ q, get_duration_seconds name rc out err = Except.ok q →
      rc = 0 ∧ 0 ≤ q ∧ ∃ v, parsePyFloat out = some v ∧ q = pyMax 0 v) ∧
    ((rc ≠ 0 ∨ parsePyFloat out = none) →
      ∃ m, get_duration_seconds name rc out err = Except.error m) := by
  intro name rc out err
  constructor
  · intro q hq
    unfold get_duration_seconds at hq
    by_cases hrc : rc ≠ 0
    · rw [if_pos hrc] at hq
      exact absurd hq (by simp)
    · rw [if_neg hrc] at hq
      push_neg at hrc
      cases hv : parsePyFloat out with
      | none => rw [hv] at hq; exact absurd hq (by simp)
      | some v =>
        rw [hv] at hq
        have hq2 : pyMax 0 v = q := Except.ok.inj hq
        refine ⟨hrc, ?_, v, rfl, hq2.symm⟩
        rw [← hq2, pyMax_eq_max]
        exact le_max_left _ _
  · intro hcase
    rcases hcase with h | h
    · unfold get_duration_seconds
      rw [if_pos h]
      exact ⟨_, rfl⟩
    · unfold get_duration_seconds
      by_cases h2 : rc ≠ 0
      · rw [if_pos h2]; exact ⟨_, rfl⟩
      · rw [if_neg h2, h]; exact ⟨_, rfl⟩

/-- C3 witness: the amended prober contract at the concrete outputs
`"12.5"` (success, 12.5 s) and a non-zero exit (failure). -/
theorem C3_duration_prober_witness :
    ((0 : Int) = 0 ∧ 0 ≤ (25/2 : ℚ) ∧
      ∃ v, parsePyFloat "12.5" = some v ∧ (25/2 : ℚ) = pyMax 0 v) ∧
    ∃ m, get_duration_seconds "b.wav" 1 "" "boom" = Except.error m :=
  ⟨(C3_duration_prober_amended "a.wav" 0 "12.5" "").1 (25/2) rfl,
   (C3_duration_prober_amended "b.wav" 1 "" "boom").2 (Or.inl (by norm_num))⟩

theorem getLast_append_two {α : Type} (l : List α) (a b : α) :
    (l ++ [a, b]).getLast? = some b := by
  have h2 : l ++ [a, b] = (l ++ [a]) ++ [b] := by
    rw [List.append_assoc]
    rfl
  rw [h2, List.getLast?_concat]

theorem probeAll_setExit (g : FileRun → Int) :
    ∀ files, probeAll (files.map (fun f => setExit (g f) f)) = probeAll files := by
  intro files
  induction files with
  | nil => rfl
  | cons f rest ih =>
    rw [List.map_cons, probeAll, ih]
    rfl

theorem runFiles_setExit (rp : Bool) (qta qts : ℚ) (tot : Nat) (g : FileRun → Int) :
    ∀ (pairs : List (FileRun × ℚ)) (idx : Nat) (st : RunState),
      runFiles rp qta qts tot (pairs.map (fun p => (setExit (g p.1) p.1, p.2))) idx st =
      runFiles rp qta qts tot pairs idx st := by
  intro pairs
  induction pairs with
  | nil => intro idx st; rfl
  | cons p rest ih =>
    obtain ⟨f, dur⟩ := p
    intro idx st
    rw [List.map_cons, runFiles]
    conv_rhs => rw [runFiles]
    rw [ih]
    rfl

theorem map_stem_setExit (g : FileRun → Int) :
    ∀ (files : List FileRun),
      (files.map (fun f => setExit (g f) f)).map FileRun.stem =
      files.map FileRun.stem := by
  intro files
  induction files with
  | nil => rfl
  | cons f rest ih =>
    rw [List.map_cons, List.map_cons, ih]
    rfl

theorem zip_map_left_setExit (g : FileRun → Int) :
    ∀ (files : List FileRun) (ds : List ℚ),
      (files.map (fun f => setExit (g f) f)).zip ds =
      (files.zip ds).map (fun p => (setExit (g p.1) p.1, p.2)) := by
  intro files
  induction files with
  | nil => intro ds; rfl
  | cons f rest ih =>
    intro ds
    cases ds with
    | nil => rfl
    | cons d ds2 =>
      rw [List.map_cons, List.zip_cons_cons, List.zip_cons_cons, List.map_cons, ih]

/-- C4: a probe failure for any queued file fails the whole run while it
is still starting: the worker posts exactly the error event, launches no
transcription (there is no file-started event at all), and writes no
merged file. -/
theorem C4_probe_failure_aborts (s : JobSettings) (t : ℚ) (files : List FileRun)
    (e : String) (hp : probeAll files = Except.error e) :
    (runWorker s t files).events = [Event.error e] ∧
    (runWorker s t files).merged = none ∧
    (∀ i n nm d, Event.file_start i n nm d ∉ (runWorker s t files).events) := by
  have hres : runWorker s t files =
      { events := [Event.error e], merged := none, finalSpeed := 1/5 } := by
    unfold runWorker
    rw [hp]
  rw [hres]
  refine ⟨rfl, rfl, ?_⟩
  intro i n nm d hmem
  exact Event.noConfusion (List.mem_singleton.mp hmem)

/-- C4 witness: the probe of the second queued file fails, and the run's
only event is the error event with no merged output. -/
theorem C4_probe_failure_witness :
    (runWorker S0 0 [W1, F4, W2]).events =
      [Event.error "ffprobe failed for c.wav: boom"] ∧
    (runWorker S0 0 [W1, F4, W2]).merged = none :=
  ⟨(C4_probe_failure_aborts S0 0 [W1, F4, W2] "ffprobe failed for c.wav: boom" rfl).1,
   (C4_probe_failure_aborts S0 0 [W1, F4, W2] "ffprobe failed for c.wav: boom" rfl).2.1⟩

/-- C7: at every progress event of a run whose probes succeeded, the
emitted batch total equals the sum of all probed durations and the
total-done estimate never exceeds it. -/
theorem C7_total_done_bounded (s : JobSettings) (t : ℚ) (files : List FileRun)
    (ds : List ℚ) (hp : probeAll files = Except.ok ds) :
    ∀ e ∈ (runWorker s t files).events, progOK ds.sum e := by
  have hres : (runWorker s t files).events =
      (runFiles s.real_progress ds.sum t files.length (files.zip ds) 1
        { events := [], merged_parts := [], total_done_audio := 0,
          speed_est := 1/5 }).events ++
      [Event.log ("Merged transcript: " ++
        derive_merged_basename (files.map FileRun.stem) ++ "_merged.txt"),
        Event.done] := by
    unfold runWorker
    rw [hp]
  rw [hres]
  intro e he
  rcases List.mem_append.mp he with h1 | h2
  · refine runFiles_progOK s.real_progress ds.sum t files.length (files.zip ds) 1 _
      ?_ ?_ ?_ e h1
    · intro e2 he2
      exact absurd he2 (by simp)
    · intro p hp2
      obtain ⟨pf, pd⟩ := p
      exact probeAll_ok_nonneg files ds hp pd (List.of_mem_zip hp2).2
    · rw [zip_map_snd files ds (probeAll_ok_length files ds hp)]
      simp
  · rcases List.mem_cons.mp h2 with rfl | h3
    · exact trivial
    · rw [List.mem_singleton.mp h3]
      exact trivial

/-- C7 witness: a one-file run of duration 10 emits the progress event
with estimate 1 ≤ 10. -/
theorem C7_total_done_witness :
    progOK (List.sum [(10 : ℚ)]) (Event.progress 10 1 5 10 1 5 1 1 "a.wav") :=
  C7_total_done_bounded S0 0 [W1] [10] rfl
    (Event.progress 10 1 5 10 1 5 1 1 "a.wav") (by
      have hev : (runWorker S0 0 [W1]).events =
          [Event.file_start 1 1 "a.wav" 10,
           Event.progress 10 1 5 10 1 5 1 1 "a.wav",
           Event.file_done 1 1 "a.wav",
           Event.log "Merged transcript: a_merged.txt",
           Event.done] := rfl
      rw [hev]
      simp)

/-- C9: in a run whose probes succeed and that is never cancelled, the
merged file is written with one block per file in order, the run ends
with the terminal done event and no error event, and a file whose
per-file transcript is missing contributes the fixed sentinel text as its
block (the child's exit code is never consulted). -/
theorem C9_missing_output_sentinel (s : JobSettings) (t : ℚ) (files : List FileRun)
    (ds : List ℚ) (hp : probeAll files = Except.ok ds)
    (hnc : ∀ f ∈ files, f.cancelBefore = false ∧ f.cancelAfter = false) :
    (runWorker s t files).merged = some (files.map blockOf) ∧
    (runWorker s t files).events.getLast? = some Event.done ∧
    (∀ m, Event.error m ∉ (runWorker s t files).events) ∧
    (∀ f ∈ files, f.outExists = false → blockOf f = mkBlock f.stem sentinel) := by
  have hres_ev : (runWorker s t files).events =
      (runFiles s.real_progress ds.sum t files.length (files.zip ds) 1
        { events := [], merged_parts := [], total_done_audio := 0,
          speed_est := 1/5 }).events ++
      [Event.log ("Merged transcript: " ++
        derive_merged_basename (files.map FileRun.stem) ++ "_merged.txt"),
        Event.done] := by
    unfold runWorker
    rw [hp]
  have hres_mg : (runWorker s t files).merged =
      some (runFiles s.real_progress ds.sum t files.length (files.zip ds) 1
        { events := [], merged_parts := [], total_done_audio := 0,
          speed_est := 1/5 }).merged_parts := by
    unfold runWorker
    rw [hp]
  have hnc2 : ∀ p ∈ files.zip ds, p.1.cancelBefore = false ∧ p.1.cancelAfter = false := by
    intro p hp2
    obtain ⟨pf, pd⟩ := p
    exact hnc pf (List.of_mem_zip hp2).1
  refine ⟨?_, ?_, ?_, ?_⟩
  · rw [hres_mg,
      (runFiles_no_cancel s.real_progress ds.sum t files.length (files.zip ds) 1 _ hnc2).1,
      zip_map_fst_fun blockOf files ds (probeAll_ok_length files ds hp)]
    simp
  · rw [hres_ev]
    exact getLast_append_two _ _ _
  · intro m hmem
    rw [hres_ev] at hmem
    rcases List.mem_append.mp hmem with h1 | h2
    · rcases runFiles_events_mem s.real_progress ds.sum t files.length (files.zip ds) 1
        _ _ h1 with h3 | h4
      · exact absurd h3 (by simp)
      · exact h4
    · rcases List.mem_cons.mp h2 with h3 | h4
      · exact Event.noConfusion h3
      · exact Event.noConfusion (List.mem_singleton.mp h4)
  · intro f hf hoe
    unfold blockOf
    rw [hoe]
    rfl

/-- C9 witness: a one-file batch whose child exits 0 without leaving a
transcript still completes, its merged block being the sentinel. -/
theorem C9_missing_output_witness :
    (runWorker S0 0 [W2]).merged = some ([W2].map blockOf) ∧
    (runWorker S0 0 [W2]).events.getLast? = some Event.done ∧
    (∀ m, Event.error m ∉ (runWorker S0 0 [W2]).events) ∧
    (∀ f ∈ [W2], f.outExists = false → blockOf f = mkBlock f.stem sentinel) :=
  C9_missing_output_sentinel S0 0 [W2] [4] rfl (by
    intro f hf
    rw [List.mem_singleton.mp hf]
    exact ⟨rfl, rfl⟩)

/-- C5: with three probed files, when file 1 runs to completion untouched
and cancellation is observed during file 2's processing (the re-read
after its polling loop sees the flag), the merged file is still written
and contains exactly file 1's block, the terminal event is the done
event (no error event is posted), and the observer renders that terminal
event as "Stopped.", not as a failure. -/
theorem C5_cancellation_mid_batch (s : JobSettings) (t : ℚ) (f1 f2 f3 : FileRun)
    (d1 d2 d3 : ℚ) (hp : probeAll [f1, f2, f3] = Except.ok [d1, d2, d3])
    (h1b : f1.cancelBefore = false) (h1a : f1.cancelAfter = false)
    (h2b : f2.cancelBefore = false) (h2a : f2.cancelAfter = true) :
    (runWorker s t [f1, f2, f3]).merged = some [blockOf f1] ∧
    (runWorker s t [f1, f2, f3]).events.getLast? = some Event.done ∧
    (∀ m, Event.error m ∉ (runWorker s t [f1, f2, f3]).events) ∧
    doneMessage true = "Stopped." := by
  have hres_ev : (runWorker s t [f1, f2, f3]).events =
      (runFiles s.real_progress ([d1, d2, d3] : List ℚ).sum t 3
        [(f1, d1), (f2, d2), (f3, d3)] 1
        { events := [], merged_parts := [], total_done_audio := 0,
          speed_est := 1/5 }).events ++
      [Event.log ("Merged transcript: " ++
        derive_merged_basename ([f1, f2, f3].map FileRun.stem) ++ "_merged.txt"),
        Event.done] := by
    unfold runWorker
    rw [hp]
    rfl
  have hres_mg : (runWorker s t [f1, f2, f3]).merged =
      some (runFiles s.real_progress ([d1, d2, d3] : List ℚ).sum t 3
        [(f1, d1), (f2, d2), (f3, d3)] 1
        { events := [], merged_parts := [], total_done_audio := 0,
          speed_est := 1/5 }).merged_parts := by
    unfold runWorker
    rw [hp]
    rfl
  refine ⟨?_, ?_, ?_, rfl⟩
  · rw [hres_mg,
      runFiles_cons_ok s.real_progress ([d1, d2, d3] : List ℚ).sum t 3 f1 d1
        [(f2, d2), (f3, d3)] 1 _ h1b h1a,
      runFiles_cons_ca s.real_progress ([d1, d2, d3] : List ℚ).sum t 3 f2 d2
        [(f3, d3)] 2 _ h2b h2a]
    simp
  · rw [hres_ev]
    exact getLast_append_two _ _ _
  · intro m hmem
    rw [hres_ev] at hmem
    rcases List.mem_append.mp hmem with h1 | h2
    · rcases runFiles_events_mem s.real_progress ([d1, d2, d3] : List ℚ).sum t 3
        [(f1, d1), (f2, d2), (f3, d3)] 1 _ _ h1 with h3 | h4
      · exact absurd h3 (by simp)
      · exact h4
    · rcases List.mem_cons.mp h2 with h3 | h4
      · exact Event.noConfusion h3
      · exact Event.noConfusion (List.mem_singleton.mp h4)

/-- C5 witness: three concrete files; cancellation is observed while the
second one is processing; only file 1's block reaches the merged file and
the run ends with the done event. -/
theorem C5_cancellation_witness :
    (runWorker S0 0 [W1, F5b, F5c]).merged = some [blockOf W1] ∧
    (runWorker S0 0 [W1, F5b, F5c]).events.getLast? = some Event.done ∧
    (∀ m, Event.error m ∉ (runWorker S0 0 [W1, F5b, F5c]).events) ∧
    doneMessage true = "Stopped." :=
  C5_cancellation_mid_batch S0 0 W1 F5b F5c 10 2 3 rfl rfl rfl rfl rfl

/-- C6: for one file, from the fresh per-file loop state the code starts
with, the done_file components of the forwarded progress events are
strictly increasing — in particular non-decreasing — whatever the
percentage samples in the child's output do; an event is forwarded only
when its value strictly exceeds the previously forwarded one. -/
theorem C6_progress_monotone (rp : Bool) (qta qd qs qst qts qtda : ℚ)
    (idx total : Nat) (name : String) (iters : List Iter) :
    List.Pairwise (fun a b : ℚ => a < b)
      (doneVals (runIters rp qta qd qs qst qts qtda idx total name iters
        { buf := [], last_pct := none, last_done_file := 0, events := [] }).events) ∧
    List.Chain' (fun a b : ℚ => a ≤ b)
      (doneVals (runIters rp qta qd qs qst qts qtda idx total name iters
        { buf := [], last_pct := none, last_done_file := 0, events := [] }).events) := by
  have h := runIters_sorted rp qta qd qs qst qts qtda idx total name iters
    { buf := [], last_pct := none, last_done_file := 0, events := [] }
    (by simp [doneVals]) (by
      intro d hd
      exact absurd hd (by simp [doneVals]))
  refine ⟨h.1, ?_⟩
  exact List.Chain'.imp (fun a b hab => le_of_lt hab) (List.Pairwise.chain' h.1)

/-- C8 counterexample: for a file of duration 1 finishing in 0.0005 s of
wall time, the claim's formula speed*0.7 + (duration/wall)*0.3 gives
600.14, but the code floors the wall time at 0.001 s (source line 683)
and updates the estimate to 300.14. -/
theorem C8_wall_floor_counterexample :
    (runWorker S0 0 [F8]).finalSpeed = 15007/50 ∧
    (1/5 : ℚ) * (7/10) + ((1 : ℚ) / (F8.endTime - F8.startTime)) * (3/10) = 30007/50 ∧
    (15007/50 : ℚ) ≠ 30007/50 :=
  ⟨rfl, rfl, by norm_num⟩

/-- C8 (amended): the throughput estimate starts each run at exactly 0.20
and, after each completed file of positive duration, becomes exactly
speed*0.7 + (duration / max(0.001, wall))*0.3 — the wall-clock time is
floored at 0.001 s, which coincides with the claim's formula whenever the
file took at least one millisecond; from 0.20, duration 100 and wall 50
give exactly 0.74; zero-duration files leave the estimate unchanged. -/
theorem C8_throughput_ema_amended :
    (∀ (s : JobSettings) (t : ℚ), (runWorker s t []).finalSpeed = 1/5) ∧
    (∀ (s : JobSettings) (t : ℚ) (files : List FileRun) (ds : List ℚ),
      probeAll files = Except.ok ds →
      (∀ f ∈ files, f.cancelBefore = false ∧ f.cancelAfter = false) →
      (runWorker s t files).finalSpeed =
        (files.zip ds).foldl
          (fun sp p => speedUpdate sp p.2 (p.1.endTime - p.1.startTime)) (1/5)) ∧
    (∀ sp dur wall, 0 < dur →
      speedUpdate sp dur wall = sp * (7/10) + (dur / pyMax (1/1000) wall) * (3/10)) ∧
    speedUpdate (1/5) 100 50 = 37/50 ∧
    (∀ sp wall, speedUpdate sp 0 wall = sp) := by
  refine ⟨fun s t => rfl, ?_, ?_, rfl, ?_⟩
  · intro s t files ds hp hnc
    have hres : (runWorker s t files).finalSpeed =
        (runFiles s.real_progress ds.sum t files.length (files.zip ds) 1
          { events := [], merged_parts := [], total_done_audio := 0,
            speed_est := 1/5 }).speed_est := by
      unfold runWorker
      rw [hp]
    have hnc2 : ∀ p ∈ files.zip ds,
        p.1.cancelBefore = false ∧ p.1.cancelAfter = false := by
      intro p hp2
      obtain ⟨pf, pd⟩ := p
      exact hnc pf (List.of_mem_zip hp2).1
    rw [hres]
    exact (runFiles_no_cancel s.real_progress ds.sum t files.length
      (files.zip ds) 1 _ hnc2).2
  · intro sp dur wall h
    unfold speedUpdate
    rw [if_pos h]
  · intro sp wall
    unfold speedUpdate
    rw [if_neg (lt_irrefl 0)]

/-- C8 witness: the amended EMA fold at a concrete one-file run of
duration 10 and wall time 10. -/
theorem C8_throughput_ema_witness :
    (runWorker S0 0 [W1]).finalSpeed =
      ([W1].zip [(10 : ℚ)]).foldl
        (fun sp p => speedUpdate sp p.2 (p.1.endTime - p.1.startTime)) (1/5) :=
  C8_throughput_ema_amended.2.1 S0 0 [W1] [10] rfl (by
    intro f hf
    rw [List.mem_singleton.mp hf]
    exact ⟨rfl, rfl⟩)

/-- C10: the worker never consults the child process exit code —
reassigning every file's exit code arbitrarily leaves the entire
observable run (events, merged output, throughput state) unchanged — and
once the probes have succeeded no error event is ever posted, so a
non-zero exit neither aborts the batch nor produces an error event. -/
theorem C10_exit_status_ignored :
    (∀ (s : JobSettings) (t : ℚ) (files : List FileRun) (g : FileRun → Int),
      runWorker s t (files.map (fun f => setExit (g f) f)) = runWorker s t files) ∧
    (∀ (s : JobSettings) (t : ℚ) (files : List FileRun) (ds : List ℚ),
      probeAll files = Except.ok ds →
      ∀ m, Event.error m ∉ (runWorker s t files).events) := by
  constructor
  · intro s t files g
    cases hp : probeAll files with
    | error e =>
      unfold runWorker
      rw [probeAll_setExit g files, hp]
    | ok ds =>
      unfold runWorker
      rw [probeAll_setExit g files, hp]
      dsimp only
      rw [List.length_map, map_stem_setExit g files, zip_map_left_setExit g files ds,
        runFiles_setExit s.real_progress ds.sum t files.length g (files.zip ds) 1 _]
  · intro s t files ds hp m hmem
    have hres_ev : (runWorker s t files).events =
        (runFiles s.real_progress ds.sum t files.length (files.zip ds) 1
          { events := [], merged_parts := [], total_done_audio := 0,
            speed_est := 1/5 }).events ++
        [Event.log ("Merged transcript: " ++
          derive_merged_basename (files.map FileRun.stem) ++ "_merged.txt"),
          Event.done] := by
      unfold runWorker
      rw [hp]
    rw [hres_ev] at hmem
    rcases List.mem_append.mp hmem with h1 | h2
    · rcases runFiles_events_mem s.real_progress ds.sum t files.length (files.zip ds) 1
        _ _ h1 with h3 | h4
      · exact absurd h3 (by simp)
      · exact h4
    · rcases List.mem_cons.mp h2 with h3 | h4
      · exact Event.noConfusion h3
      · exact Event.noConfusion (List.mem_singleton.mp h4)

/-- C10 witness: a successful one-file run posts no error event. -/
theorem C10_exit_status_witness :
    Event.error "x" ∉ (runWorker S0 0 [W1]).events :=
  C10_exit_status_ignored.2 S0 0 [W1] [10] rfl "x"

end Whisper
